import Mathlib

/-!
Shallow embedding of `src/server.py` (Checklist/CAP service).

The relational store is modelled as lists of rows; each HTTP handler becomes a
pure function from the store (plus its request arguments) to the store after
the request together with its response or error.  SQL statements executed on a
connection before `commit` are transaction-local: an exception at any point
makes the handler run `conn.rollback()`, so the handler returns the original
store on every error path.  A failure schedule `failAt` says which statement
(in handler execution order, 0-based, with `commit` counted as the statement
after the last SQL statement) raises; `none` means no storage fault.

Dates are calendar dates (no time-of-day).  `_parse_ddmmyyyy` is the embedding
of `datetime.strptime(s, "%d.%m.%Y").date()` wrapped in the `except ValueError`
handler: CPython's `_strptime` compiles the format to the anchored regex
`(3[01]|[12]\d|0[1-9]|[1-9])\.(1[0-2]|0[1-9]|[1-9])\.(\d\d\d\d)` (ordered
alternation, full-string match required), then `datetime` validates the
calendar date.  Digits are modelled as ASCII digits.
-/

namespace CloudApi

/-- A calendar date, as produced by Python's `datetime.date`. -/
structure Date where
  year : Nat
  month : Nat
  day : Nat
deriving DecidableEq

/-- Numeric key giving the calendar order of dates (valid dates have
`month ≤ 12` and `day ≤ 31`, so this is lexicographic in year, month, day). -/
def Date.toKey (d : Date) : Nat :=
  d.year * 10000 + d.month * 100 + d.day

/-- ASCII digit test (the regex class `\d` restricted to ASCII). -/
def digit? (c : Char) : Bool := '0' ≤ c && c ≤ '9'

/-- Numeric value of an ASCII digit. -/
def digitVal (c : Char) : Nat := c.toNat - '0'.toNat

/-- Value of a digit string read left to right. -/
def natOfDigits (l : List Char) : Nat :=
  l.foldl (fun a c => 10 * a + digitVal c) 0

/-- Gregorian leap-year rule used by `datetime`. -/
def isLeap (y : Nat) : Bool :=
  (y % 4 == 0 && y % 100 != 0) || y % 400 == 0

/-- Days in a month, as validated by `datetime.date`. -/
def daysInMonth (y m : Nat) : Nat :=
  if m == 2 then (if isLeap y then 29 else 28)
  else if m == 4 || m == 6 || m == 9 || m == 11 then 30
  else 31

/-- The validity check performed by the `datetime.date` constructor
(`MINYEAR = 1`, `MAXYEAR = 9999`). -/
def validDate (y m d : Nat) : Bool :=
  1 ≤ y && y ≤ 9999 && 1 ≤ m && m ≤ 12 && 1 ≤ d && d ≤ daysInMonth y m

/-- Constructor `datetime.date(y, m, d)`, raising (`none`) on an invalid calendar date. -/
def mkDate? (y m d : Nat) : Option Date :=
  if validDate y m d then some ⟨y, m, d⟩ else none

/-- Match of the `%d` field followed by the literal dot.  The regex
alternation `3[01]|[12]\d|0[1-9]|[1-9]` tries the two-digit branches first and
backtracks to the one-digit branch only when the following literal `\.` fails;
since a digit is never a dot, this resolves deterministically: if the second
character is a dot the day has one digit, otherwise it must have two digits
(value 1..31) followed by a dot. -/
def parseDayRest : List Char → Option (Nat × List Char)
  | c1 :: c2 :: rest =>
    if c2 = '.' then
      if digit? c1 && 1 ≤ digitVal c1 then some (digitVal c1, rest) else none
    else
      match rest with
      | c3 :: rest2 =>
        if c3 = '.' && digit? c1 && digit? c2 &&
            1 ≤ 10 * digitVal c1 + digitVal c2 &&
            10 * digitVal c1 + digitVal c2 ≤ 31 then
          some (10 * digitVal c1 + digitVal c2, rest2)
        else none
      | [] => none
  | _ => none

/-- Match of the `%m` field followed by the literal dot
(regex `1[0-2]|0[1-9]|[1-9]`, same backtracking resolution as `parseDayRest`). -/
def parseMonthRest : List Char → Option (Nat × List Char)
  | c1 :: c2 :: rest =>
    if c2 = '.' then
      if digit? c1 && 1 ≤ digitVal c1 then some (digitVal c1, rest) else none
    else
      match rest with
      | c3 :: rest2 =>
        if c3 = '.' && digit? c1 && digit? c2 &&
            1 ≤ 10 * digitVal c1 + digitVal c2 &&
            10 * digitVal c1 + digitVal c2 ≤ 12 then
          some (10 * digitVal c1 + digitVal c2, rest2)
        else none
      | [] => none
  | _ => none

/-- Match of `%Y` (`\d\d\d\d`, exactly four digits) at the end of the string:
`strptime` raises unless the whole input was consumed. -/
def parseYearEnd : List Char → Option Nat
  | [a, b, c, d] =>
    if digit? a && digit? b && digit? c && digit? d then
      some (natOfDigits [a, b, c, d])
    else none
  | _ => none

/-- The full regex match of `"%d.%m.%Y"` over the input, returning
(day, month, year) field values: day field, dot, month field, dot, year
field, end of input, each stage failing the whole match on a miss. -/
def strptimeDMY (l : List Char) : Option (Nat × Nat × Nat) :=
  (parseDayRest l).bind (fun p =>
    (parseMonthRest p.2).bind (fun q =>
      (parseYearEnd q.2).map (fun y => (p.1, q.1, y))))

/-- Function `_parse_ddmmyyyy` from `server.py`: `None` and the empty string are falsy
(`if not s: return None`); otherwise `strptime` then `datetime` validation,
with any `ValueError` mapped to `None`. -/
def _parse_ddmmyyyy (s : Option String) : Option Date :=
  match s with
  | none => none
  | some str =>
    if str.data.isEmpty then none
    else (strptimeDMY str.data).bind (fun t => mkDate? t.2.2 t.2.1 t.1)

/-- The date-string shape described by the specification of `parse_date`,
with the day and month widths as the implementation accepts them: a one- or
two-digit day, a dot, a one- or two-digit month, a dot, and an exactly
four-digit year, the whole input consumed, denoting a valid calendar date.
Stated independently of the parser, for comparison with it. -/
def SpecShapeDate (l : List Char) (dt : Date) : Prop :=
  ∃ dp mp yp : List Char,
    l = dp ++ '.' :: (mp ++ '.' :: yp) ∧
    (dp.length = 1 ∨ dp.length = 2) ∧ dp.all digit? = true ∧
    (mp.length = 1 ∨ mp.length = 2) ∧ mp.all digit? = true ∧
    yp.length = 4 ∧ yp.all digit? = true ∧
    dt = ⟨natOfDigits yp, natOfDigits mp, natOfDigits dp⟩ ∧
    validDate (natOfDigits yp) (natOfDigits mp) (natOfDigits dp) = true

/-- The exact `DD.MM.YYYY` shape: two-digit day, two-digit month, four-digit
year, dot-separated — the pattern the specification claims is required. -/
def strictDDMMYYYY (l : List Char) : Bool :=
  match l with
  | [d1, d2, '.', m1, m2, '.', y1, y2, y3, y4] =>
    digit? d1 && digit? d2 && digit? m1 && digit? m2 &&
    digit? y1 && digit? y2 && digit? y3 && digit? y4
  | _ => false

/-! ## Data model: the three tables of the relational store -/

/-- A row of `checklist_items`.  Rows are seeded externally; the service only
updates the operator field group and the inspector field group. -/
structure ItemRow where
  checklist_id : Int
  number : Int
  reference : String
  question : String
  status : Option String
  evidence : Option String
  operator_feedback : Option String
  acceptance : Option String
  inspector_feedback : Option String
deriving DecidableEq

/-- A row of `caps`.  `updated_at = none` models a value this service never
wrote (the `INSERT` in `upsert_cap` lists no `updated_at` column, leaving it
to the table default); `some t` models `CURRENT_TIMESTAMP` at server time `t`. -/
structure CapRow where
  checklist_id : Int
  item_number : Int
  description : String
  owner : Option String
  target_date : Option Date
  updated_at : Option Nat
deriving DecidableEq

/-- A row of `cap_steps`. -/
structure StepRow where
  checklist_id : Int
  item_number : Int
  step_no : Int
  step_text : String
  target_date : Option Date
deriving DecidableEq

/-- The whole relational store. -/
structure DB where
  checklist_items : List ItemRow
  caps : List CapRow
  cap_steps : List StepRow
deriving DecidableEq

/-! ## Request bodies (the pydantic models) -/

/-- Body of `POST /items/{checklist_id}/{number}/operator`. -/
structure OperatorUpdate where
  status : String
  feedback : String
  evidence_path : Option String
deriving DecidableEq

/-- Body of `POST /items/{checklist_id}/{number}/inspector`. -/
structure InspectorUpdate where
  acceptance : Option String
  feedback : Option String
deriving DecidableEq

/-- Body of `POST /caps/{checklist_id}/{item_number}`. -/
structure CapUpsert where
  description : String
  owner : Option String
  target_date : Option String
deriving DecidableEq

/-- One element of the body of `PUT /caps/{checklist_id}/{item_number}/steps`.
The client supplies a `step_no`, but `replace_cap_steps` renumbers by input
position. -/
structure CapStep where
  step_no : Int
  step_text : String
  target_date : Option String
deriving DecidableEq

/-- Body of `PUT /caps/{checklist_id}/{item_number}/steps`. -/
structure CapStepsReplace where
  steps : List CapStep
deriving DecidableEq

/-- The two error kinds the handlers surface: HTTP 404 (`Item not found`) and
HTTP 500 (any storage fault, surfaced after `conn.rollback()`). -/
inductive ApiError where
  | notFound : ApiError
  | persistence : ApiError
deriving DecidableEq

/-! ## `WHERE` clauses -/

/-- Clause `WHERE checklist_id = %s AND number = %s` on `checklist_items`. -/
def itemKey (cid n : Int) (r : ItemRow) : Bool :=
  r.checklist_id == cid && r.number == n

/-- Clause `WHERE checklist_id = %s AND item_number = %s` on `caps`. -/
def capKey (cid inum : Int) (r : CapRow) : Bool :=
  r.checklist_id == cid && r.item_number == inum

/-- Clause `WHERE checklist_id = %s AND item_number = %s` on `cap_steps`. -/
def stepKey (cid inum : Int) (r : StepRow) : Bool :=
  r.checklist_id == cid && r.item_number == inum

/-- The cap_steps rows for one key, in table order. -/
def stepsFor (db : DB) (cid inum : Int) : List StepRow :=
  db.cap_steps.filter (stepKey cid inum)

/-! ## Handlers

Each handler takes the store before the request and a failure schedule
`failAt` (which raising statement, in execution order, with `commit` counted
after the last SQL statement; `none` = no storage fault) and returns the store
after the request together with the response or error.  On every error path
the returned store is the input store: the transaction was never committed and
the handler (or the pool's `putconn`) rolls it back. -/

/-- The `SET` clause of `update_operator`: `status` and `operator_feedback`
always, `evidence` only when `evidence_path` was supplied in the body. -/
def applyOperatorUpdate (body : OperatorUpdate) (r : ItemRow) : ItemRow :=
  if body.evidence_path.isSome then
    { r with status := some body.status,
             evidence := body.evidence_path,
             operator_feedback := some body.feedback }
  else
    { r with status := some body.status,
             operator_feedback := some body.feedback }

/-- Handler of `POST /items/{checklist_id}/{number}/operator` (`update_operator`):
one `UPDATE` (statement 0), a 404 when its rowcount is zero, then `commit`
(statement 1). -/
def update_operator (db : DB) (cid n : Int) (body : OperatorUpdate)
    (failAt : Option Nat) : DB × Option ApiError :=
  if failAt = some 0 then (db, some .persistence)
  else if (db.checklist_items.filter (itemKey cid n)).length = 0 then
    (db, some .notFound)
  else if failAt = some 1 then (db, some .persistence)
  else
    ({ db with checklist_items := (db.checklist_items.map
        (fun r => if itemKey cid n r then applyOperatorUpdate body r else r)) },
     none)

/-- The `SET` clause of `update_inspector`: both fields written verbatim from
the body, absent values included. -/
def applyInspectorUpdate (body : InspectorUpdate) (r : ItemRow) : ItemRow :=
  { r with acceptance := body.acceptance,
           inspector_feedback := body.feedback }

/-- Handler of `POST /items/{checklist_id}/{number}/inspector` (`update_inspector`):
one `UPDATE` (statement 0), a 404 on zero rowcount, then `commit`
(statement 1). -/
def update_inspector (db : DB) (cid n : Int) (body : InspectorUpdate)
    (failAt : Option Nat) : DB × Option ApiError :=
  if failAt = some 0 then (db, some .persistence)
  else if (db.checklist_items.filter (itemKey cid n)).length = 0 then
    (db, some .notFound)
  else if failAt = some 1 then (db, some .persistence)
  else
    ({ db with checklist_items := (db.checklist_items.map
        (fun r => if itemKey cid n r then applyInspectorUpdate body r else r)) },
     none)

/-- The `SET` clause of the `UPDATE` in `upsert_cap`: all of `description`,
`owner`, `target_date` written from the body, and
`updated_at = CURRENT_TIMESTAMP` (server time `now`). -/
def applyCapUpdate (body : CapUpsert) (now : Nat) (r : CapRow) : CapRow :=
  { r with description := body.description,
           owner := body.owner,
           target_date := _parse_ddmmyyyy body.target_date,
           updated_at := some now }

/-- The row inserted by `upsert_cap` on a miss: the `INSERT` column list has
no `updated_at`, so the service writes none (`none`). -/
def newCapRow (cid inum : Int) (body : CapUpsert) : CapRow :=
  { checklist_id := cid, item_number := inum,
    description := body.description, owner := body.owner,
    target_date := _parse_ddmmyyyy body.target_date, updated_at := none }

/-- Handler of `POST /caps/{checklist_id}/{item_number}` (`upsert_cap`): `UPDATE`
(statement 0); when its rowcount is zero, `INSERT` (statement 1) then `commit`
(statement 2); otherwise `commit` (statement 1). -/
def upsert_cap (db : DB) (cid inum : Int) (body : CapUpsert) (now : Nat)
    (failAt : Option Nat) : DB × Option ApiError :=
  if failAt = some 0 then (db, some .persistence)
  else if (db.caps.filter (capKey cid inum)).length = 0 then
    if failAt = some 1 ∨ failAt = some 2 then (db, some .persistence)
    else ({ db with caps := db.caps ++ [newCapRow cid inum body] }, none)
  else
    if failAt = some 1 then (db, some .persistence)
    else
      ({ db with caps := (db.caps.map
          (fun r => if capKey cid inum r then applyCapUpdate body now r else r)) },
       none)

/-- Statement `DELETE FROM cap_steps WHERE checklist_id = %s AND item_number = %s`. -/
def deleteStepsStmt (cid inum : Int) (db : DB) : DB :=
  { db with cap_steps := db.cap_steps.filter (fun r => !stepKey cid inum r) }

/-- The row written by one `INSERT INTO cap_steps ... VALUES (cid, inum, idx,
s.step_text, d)` where `d = _parse_ddmmyyyy(s.target_date)`; the client's
`s.step_no` is never read. -/
def mkStepRow (cid inum : Int) (idx : Nat) (s : CapStep) : StepRow :=
  { checklist_id := cid, item_number := inum, step_no := (idx : Int),
    step_text := s.step_text, target_date := _parse_ddmmyyyy s.target_date }

/-- One `INSERT` into `cap_steps`. -/
def insertStepStmt (cid inum : Int) (idx : Nat) (s : CapStep) (db : DB) : DB :=
  { db with cap_steps := db.cap_steps ++ [mkStepRow cid inum idx s] }

/-- Python's `enumerate(steps, start=idx)`: each step paired with its
position, counting from `idx`. -/
def numberFrom (idx : Nat) : List CapStep → List (Nat × CapStep)
  | [] => []
  | s :: rest => (idx, s) :: numberFrom (idx + 1) rest

/-- The rows the `INSERT` loop of `replace_cap_steps` writes: the input steps
in input order, numbered from 1. -/
def newSteps (cid inum : Int) (steps : List CapStep) : List StepRow :=
  (numberFrom 1 steps).map (fun p => mkStepRow cid inum p.1 p.2)

/-- Run a list of SQL statements on the transaction-local store, stopping with
an exception at position `failAt` when the schedule says so. -/
def runStmts : List (DB → DB) → Option Nat → DB → Option DB
  | [], _, pending => some pending
  | _ :: _, some 0, _ => none
  | s :: rest, some (k + 1), pending => runStmts rest (some k) (s pending)
  | s :: rest, none, pending => runStmts rest none (s pending)

/-- The statement sequence of `replace_cap_steps`: the `DELETE`, then one
`INSERT` per input step in input order, numbered by
`enumerate(body.steps, start=1)`. -/
def replaceStmts (cid inum : Int) (steps : List CapStep) : List (DB → DB) :=
  deleteStepsStmt cid inum ::
    (numberFrom 1 steps).map (fun p => insertStepStmt cid inum p.1 p.2)

/-- Handler of `PUT /caps/{checklist_id}/{item_number}/steps` (`replace_cap_steps`):
the `DELETE` and the `INSERT`s run in one transaction; any exception (from a
statement or from `commit`, scheduled at position `steps.length + 1`) reaches
`conn.rollback()`, so the store is returned unchanged with an HTTP 500.
On success the response carries `count = len(body.steps)`. -/
def replace_cap_steps (db : DB) (cid inum : Int) (body : CapStepsReplace)
    (failAt : Option Nat) : DB × Except ApiError Nat :=
  match runStmts (replaceStmts cid inum body.steps) failAt db with
  | none => (db, .error .persistence)
  | some pending =>
    if failAt = some (body.steps.length + 1) then (db, .error .persistence)
    else (pending, .ok body.steps.length)

/-- SQL `MAX` over the non-`NULL` dates of a column: the greatest date in
calendar order, `NULL` (`none`) when there are none. -/
def maxDate : List Date → Option Date
  | [] => none
  | d :: rest =>
    match maxDate rest with
    | none => some d
    | some m => if m.toKey < d.toKey then some d else some m

/-- Handler of `GET /caps/{checklist_id}/{item_number}/final-date`
(`compute_cap_final_date`): `SELECT MAX(target_date)` over the key's rows;
SQL `MAX` skips `NULL` inputs and yields `NULL` when no non-`NULL` value
exists, and the handler then returns `{final_date: iso-or-null}`. -/
def compute_cap_final_date (db : DB) (cid inum : Int) : Option Date :=
  maxDate ((stepsFor db cid inum).filterMap (fun r => r.target_date))

/-! ## Concrete fixtures used to instantiate the theorems -/

/-- Fixture: an externally seeded checklist item for key (7, 1). -/
def itemFix : ItemRow :=
  { checklist_id := 7, number := 1, reference := "R-1", question := "Q1",
    status := some "open", evidence := some "old.png",
    operator_feedback := some "old-fb", acceptance := some "ok",
    inspector_feedback := some "insp" }

/-- Fixture: an existing CAP header for key (7, 1). -/
def capFix : CapRow :=
  { checklist_id := 7, item_number := 1, description := "d0",
    owner := some "bob", target_date := some ⟨2024, 1, 5⟩, updated_at := some 3 }

/-- Fixture: existing CAP steps for key (7, 1) with target dates
05.01.2024, null, 20.01.2024. -/
def stepFix1 : StepRow := ⟨7, 1, 1, "a", some ⟨2024, 1, 5⟩⟩

/-- Second fixture step (no date). -/
def stepFix2 : StepRow := ⟨7, 1, 2, "b", none⟩

/-- Third fixture step. -/
def stepFix3 : StepRow := ⟨7, 1, 3, "c", some ⟨2024, 1, 20⟩⟩

/-- Fixture store holding the three fixtures. -/
def dbFix : DB :=
  { checklist_items := [itemFix], caps := [capFix],
    cap_steps := [stepFix1, stepFix2, stepFix3] }

/-- Fixture store with empty tables. -/
def dbEmptyFix : DB := { checklist_items := [], caps := [], cap_steps := [] }

/-- Fixture: `capFix` after an upsert with description `d2`, no owner, a
malformed date, at server time 9. -/
def capFixD2 : CapRow :=
  { capFix with description := "d2", owner := none, target_date := none,
                updated_at := some 9 }

/-! ## Lemmas about `replace_cap_steps` -/

theorem runStmts_none_eq (stmts : List (DB → DB)) (db : DB) :
    runStmts stmts none db = some (stmts.foldl (fun d s => s d) db) := by
  induction stmts generalizing db with
  | nil => rfl
  | cons s rest ih => simp [runStmts, ih]

theorem foldl_insertSteps (cid inum : Int) (l : List (Nat × CapStep)) (db : DB) :
    ((l.map (fun p => insertStepStmt cid inum p.1 p.2)).foldl (fun d s => s d) db) =
      { db with cap_steps := db.cap_steps ++ l.map (fun p => mkStepRow cid inum p.1 p.2) } := by
  induction l generalizing db with
  | nil => simp
  | cons p rest ih => simp [insertStepStmt, ih]

theorem replace_cap_steps_ok (db : DB) (cid inum : Int) (body : CapStepsReplace) :
    replace_cap_steps db cid inum body none =
      ({ db with cap_steps := db.cap_steps.filter (fun r => !stepKey cid inum r)
          ++ newSteps cid inum body.steps }, .ok body.steps.length) := by
  unfold replace_cap_steps replaceStmts
  rw [runStmts_none_eq]
  simp [deleteStepsStmt, foldl_insertSteps, newSteps]

theorem newSteps_key (cid inum : Int) (steps : List CapStep) :
    ∀ r ∈ newSteps cid inum steps, stepKey cid inum r = true := by
  intro r hr
  simp only [newSteps, List.mem_map] at hr
  obtain ⟨p, _, rfl⟩ := hr
  simp [stepKey, mkStepRow]

theorem stepsFor_replace (db : DB) (cid inum : Int) (body : CapStepsReplace) :
    stepsFor (replace_cap_steps db cid inum body none).1 cid inum =
      newSteps cid inum body.steps := by
  rw [replace_cap_steps_ok]
  simp only [stepsFor, List.filter_append]
  rw [List.filter_filter]
  have h1 : (db.cap_steps.filter (fun a => stepKey cid inum a && !stepKey cid inum a)) = [] := by
    simp
  have h2 : (newSteps cid inum body.steps).filter (stepKey cid inum) =
      newSteps cid inum body.steps :=
    List.filter_eq_self.mpr (newSteps_key cid inum body.steps)
  rw [h1, h2, List.nil_append]

theorem numberFrom_map (g : CapStep → CapStep) (idx : Nat) (l : List CapStep) :
    numberFrom idx (l.map g) = (numberFrom idx l).map (fun p => (p.1, g p.2)) := by
  induction l generalizing idx with
  | nil => rfl
  | cons s rest ih => simp [numberFrom, ih]

theorem newSteps_ignores_step_no (cid inum : Int) (steps : List CapStep)
    (f : CapStep → Int) :
    newSteps cid inum (steps.map (fun s => { s with step_no := f s })) =
      newSteps cid inum steps := by
  simp only [newSteps, numberFrom_map, List.map_map]
  exact List.map_congr_left (fun p _ => by simp [mkStepRow])

/-! ## Claim theorems -/

/-- Claim C1: `replace_cap_steps` (with no storage fault) deletes every
existing `cap_steps` row for the key and inserts exactly the supplied items,
with `step_no` assigned as the 1-based input position; any caller-supplied
`step_no` is ignored (rewriting it arbitrarily does not change the result);
the reported count is the input length (an empty input yields count 0 and
zero remaining steps for the key, both being instances of the equations). -/
theorem C1_replace_steps_destructive (db : DB) (cid inum : Int)
    (body : CapStepsReplace) (f : CapStep → Int) :
    replace_cap_steps db cid inum body none =
      ({ db with cap_steps := db.cap_steps.filter (fun r => !stepKey cid inum r)
          ++ newSteps cid inum body.steps }, .ok body.steps.length) ∧
    stepsFor (replace_cap_steps db cid inum body none).1 cid inum =
      newSteps cid inum body.steps ∧
    replace_cap_steps db cid inum ⟨body.steps.map (fun s => { s with step_no := f s })⟩ none =
      replace_cap_steps db cid inum body none := by
  refine ⟨replace_cap_steps_ok db cid inum body, stepsFor_replace db cid inum body, ?_⟩
  rw [replace_cap_steps_ok, replace_cap_steps_ok]
  simp [newSteps_ignores_step_no]

/-- Claim C9: `replace_cap_steps` is idempotent: two successive calls with the
same ordered list leave the same step set for the key, and each call reports
the input length as its count. -/
theorem C9_replace_steps_idempotent (db : DB) (cid inum : Int)
    (body : CapStepsReplace) :
    (replace_cap_steps db cid inum body none).2 = .ok body.steps.length ∧
    (replace_cap_steps (replace_cap_steps db cid inum body none).1
        cid inum body none).2 = .ok body.steps.length ∧
    stepsFor (replace_cap_steps (replace_cap_steps db cid inum body none).1
        cid inum body none).1 cid inum =
      stepsFor (replace_cap_steps db cid inum body none).1 cid inum := by
  refine ⟨?_, ?_, ?_⟩
  · rw [replace_cap_steps_ok]
  · rw [replace_cap_steps_ok (replace_cap_steps db cid inum body none).1]
  · rw [stepsFor_replace, stepsFor_replace]

/-- Claim C2: for an existing checklist item, `update_operator` without an
`evidence_path` overwrites `status` and `operator_feedback` and leaves every
other field — in particular a previously stored `evidence` — unchanged; with
an `evidence_path` supplied, `evidence` is overwritten as well; the remaining
fields are untouched in both cases (visible in the field updates below). -/
theorem C2_update_operator_partial (db : DB) (cid n : Int) (st fb e : String)
    (hex : (db.checklist_items.filter (itemKey cid n)).length ≠ 0) :
    update_operator db cid n ⟨st, fb, none⟩ none =
      ({ db with checklist_items := (db.checklist_items.map (fun r =>
          if itemKey cid n r then
            { r with status := some st, operator_feedback := some fb }
          else r)) }, none) ∧
    update_operator db cid n ⟨st, fb, some e⟩ none =
      ({ db with checklist_items := (db.checklist_items.map (fun r =>
          if itemKey cid n r then
            { r with status := some st, evidence := some e,
                     operator_feedback := some fb }
          else r)) }, none) := by
  constructor <;> simp [update_operator, hex, applyOperatorUpdate]

/-- Witness for C2 at the fixture store: status and feedback are overwritten
while the stored evidence `old.png` survives the evidence-free update. -/
theorem C2_update_operator_partial_witness :
    update_operator dbFix 7 1 ⟨"done", "fb2", none⟩ none =
      ({ dbFix with checklist_items :=
          [{ itemFix with status := some "done", operator_feedback := some "fb2" }] },
       none) ∧
    (update_operator dbFix 7 1 ⟨"done", "fb2", none⟩ none).1.checklist_items.map
      (fun r => r.evidence) = [some "old.png"] := by
  have h := C2_update_operator_partial dbFix 7 1 "done" "fb2" "new.png" (by decide)
  refine ⟨h.1.trans (by decide), ?_⟩
  rw [h.1]
  decide

/-- Claim C8: for an existing checklist item, `update_inspector` overwrites
both `acceptance` and `inspector_feedback` with exactly the supplied values —
an absent value is written as `none`, never left untouched — and the other
fields are unchanged. -/
theorem C8_update_inspector_full (db : DB) (cid n : Int) (acc fb : Option String)
    (hex : (db.checklist_items.filter (itemKey cid n)).length ≠ 0) :
    update_inspector db cid n ⟨acc, fb⟩ none =
      ({ db with checklist_items := (db.checklist_items.map (fun r =>
          if itemKey cid n r then
            { r with acceptance := acc, inspector_feedback := fb }
          else r)) }, none) := by
  simp [update_inspector, hex, applyInspectorUpdate]

/-- Witness for C8 at the fixture store: an absent acceptance and feedback
null out the previously stored values. -/
theorem C8_update_inspector_full_witness :
    update_inspector dbFix 7 1 ⟨none, none⟩ none =
      ({ dbFix with checklist_items :=
          [{ itemFix with acceptance := none, inspector_feedback := none }] },
       none) := by
  have h := C8_update_inspector_full dbFix 7 1 none none (by decide)
  exact h.trans (by decide)

/-- Claim C6: when no checklist item matches the key, `update_operator` and
`update_inspector` fail with NotFound and return the store unchanged, while
`upsert_cap` can never produce NotFound for any arguments or failure
schedule — a missing row self-heals into an insert. -/
theorem C6_notfound_no_write (db : DB) (cid n : Int)
    (bo : OperatorUpdate) (bi : InspectorUpdate)
    (habs : (db.checklist_items.filter (itemKey cid n)).length = 0) :
    update_operator db cid n bo none = (db, some .notFound) ∧
    update_inspector db cid n bi none = (db, some .notFound) ∧
    ∀ (cid' inum' : Int) (bc : CapUpsert) (now : Nat) (failAt : Option Nat),
      (upsert_cap db cid' inum' bc now failAt).2 ≠ some ApiError.notFound := by
  refine ⟨by simp [update_operator, habs], by simp [update_inspector, habs], ?_⟩
  intro cid' inum' bc now failAt
  unfold upsert_cap
  split_ifs <;> simp

/-- Witness for C6 at the empty store. -/
theorem C6_notfound_no_write_witness :
    update_operator dbEmptyFix 7 1 ⟨"s", "f", none⟩ none =
      (dbEmptyFix, some .notFound) ∧
    update_inspector dbEmptyFix 7 1 ⟨none, none⟩ none =
      (dbEmptyFix, some .notFound) ∧
    (upsert_cap dbEmptyFix 7 1 ⟨"d", none, none⟩ 5 none).2 ≠
      some ApiError.notFound := by
  have h := C6_notfound_no_write dbEmptyFix 7 1 ⟨"s", "f", none⟩ ⟨none, none⟩
    (by decide)
  exact ⟨h.1, h.2.1, h.2.2 7 1 ⟨"d", none, none⟩ 5 none⟩

/-- Claim C7: every mutating handler is atomic on error: for any failure
schedule — including one failing `replace_cap_steps` on its `DELETE`, on any
`INSERT`, or at commit — an error outcome returns the store unchanged. -/
theorem C7_atomic_on_error (db : DB) (cid n inum : Int) (bo : OperatorUpdate)
    (bi : InspectorUpdate) (bc : CapUpsert) (bs : CapStepsReplace) (now : Nat)
    (failAt : Option Nat) :
    ((update_operator db cid n bo failAt).2.isSome = true →
      (update_operator db cid n bo failAt).1 = db) ∧
    ((update_inspector db cid n bi failAt).2.isSome = true →
      (update_inspector db cid n bi failAt).1 = db) ∧
    ((upsert_cap db cid inum bc now failAt).2.isSome = true →
      (upsert_cap db cid inum bc now failAt).1 = db) ∧
    (∀ e, (replace_cap_steps db cid inum bs failAt).2 = .error e →
      (replace_cap_steps db cid inum bs failAt).1 = db) := by
  refine ⟨?_, ?_, ?_, ?_⟩
  · unfold update_operator; split_ifs <;> simp
  · unfold update_inspector; split_ifs <;> simp
  · unfold upsert_cap; split_ifs <;> simp
  · intro e h
    unfold replace_cap_steps at h ⊢
    cases hr : runStmts (replaceStmts cid inum bs.steps) failAt db with
    | none => rfl
    | some pending =>
      rw [hr] at h
      have h2 : (if failAt = some (bs.steps.length + 1) then
          ((db, Except.error ApiError.persistence) : DB × Except ApiError Nat)
        else (pending, Except.ok bs.steps.length)).2 = Except.error e := h
      by_cases hf : failAt = some (bs.steps.length + 1)
      · simp [hf]
      · rw [if_neg hf] at h2
        simp at h2

/-- Witness for C7: a fault injected at the `DELETE` of `replace_cap_steps`
leaves the fixture step set intact. -/
theorem C7_atomic_on_error_witness :
    (replace_cap_steps dbFix 7 1 ⟨[⟨9, "x", none⟩]⟩ (some 0)).2 =
      .error ApiError.persistence ∧
    (replace_cap_steps dbFix 7 1 ⟨[⟨9, "x", none⟩]⟩ (some 0)).1 = dbFix := by
  have h := (C7_atomic_on_error dbFix 7 1 1 ⟨"s", "f", none⟩ ⟨none, none⟩
    ⟨"d", none, none⟩ ⟨[⟨9, "x", none⟩]⟩ 5 (some 0)).2.2.2
  exact ⟨rfl, h ApiError.persistence rfl⟩

theorem filter_map_pres (p : CapRow → Bool) (g : CapRow → CapRow)
    (hg : ∀ r, p (g r) = p r) (l : List CapRow) :
    (l.map g).filter p = (l.filter p).map g := by
  induction l with
  | nil => rfl
  | cons a t ih =>
    by_cases h : p a = true
    · simp [List.filter_cons, hg, h, ih]
    · simp only [Bool.not_eq_true] at h
      simp [List.filter_cons, hg, h, ih]

theorem capKey_applyCapUpdate (cid inum : Int) (body : CapUpsert) (now : Nat)
    (r : CapRow) :
    capKey cid inum (if capKey cid inum r then applyCapUpdate body now r else r) =
      capKey cid inum r := by
  by_cases h : capKey cid inum r = true
  · rw [if_pos h]
    rfl
  · rw [if_neg h]

theorem capKey_newCapRow (cid inum : Int) (body : CapUpsert) :
    capKey cid inum (newCapRow cid inum body) = true := by
  simp [capKey, newCapRow]

/-- Claim C3: `upsert_cap` updates first and inserts exactly when the update
matched zero rows; under the one-row-per-key invariant the key holds exactly
one row afterwards whether or not a row existed before; the update path
stamps `updated_at` with the current server time, while the inserted row
carries no service-written `updated_at`. -/
theorem C3_upsert_update_then_insert (db : DB) (cid inum : Int)
    (body : CapUpsert) (now : Nat)
    (hinv : (db.caps.filter (capKey cid inum)).length ≤ 1) :
    (upsert_cap db cid inum body now none).2 = none ∧
    ((db.caps.filter (capKey cid inum)).length = 0 →
      (upsert_cap db cid inum body now none).1.caps =
        db.caps ++ [newCapRow cid inum body] ∧
      (newCapRow cid inum body).updated_at = none) ∧
    ((db.caps.filter (capKey cid inum)).length ≠ 0 →
      (upsert_cap db cid inum body now none).1.caps = (db.caps.map (fun r =>
        if capKey cid inum r then applyCapUpdate body now r else r)) ∧
      ∀ r ∈ ((upsert_cap db cid inum body now none).1.caps.filter (capKey cid inum)),
        r.updated_at = some now) ∧
    (((upsert_cap db cid inum body now none).1.caps.filter (capKey cid inum)).length
      = 1) := by
  by_cases h0 : (db.caps.filter (capKey cid inum)).length = 0
  · have hnil : db.caps.filter (capKey cid inum) = [] := List.length_eq_zero.mp h0
    refine ⟨by simp [upsert_cap, h0], fun _ => ⟨by simp [upsert_cap, h0], rfl⟩,
      fun hne => absurd h0 hne, ?_⟩
    simp [upsert_cap, h0, List.filter_append, hnil, capKey_newCapRow]
  · have heq : (upsert_cap db cid inum body now none).1.caps = (db.caps.map (fun r =>
        if capKey cid inum r then applyCapUpdate body now r else r)) := by
      simp [upsert_cap, h0]
    have hfil : ((upsert_cap db cid inum body now none).1.caps.filter (capKey cid inum))
        = (db.caps.filter (capKey cid inum)).map (fun r =>
            if capKey cid inum r then applyCapUpdate body now r else r) := by
      rw [heq, filter_map_pres _ _ (capKey_applyCapUpdate cid inum body now)]
    refine ⟨by simp [upsert_cap, h0], fun he => absurd he h0, fun _ => ⟨heq, ?_⟩, ?_⟩
    · intro r hr
      rw [hfil] at hr
      simp only [List.mem_map, List.mem_filter] at hr
      obtain ⟨r0, ⟨_, hk⟩, rfl⟩ := hr
      simp [hk, applyCapUpdate]
    · rw [hfil, List.length_map]
      omega

/-- Witness for C3: at the fixture store the update path keeps one row for the
key; at the empty store the insert path appends the new row. -/
theorem C3_upsert_update_then_insert_witness :
    (((upsert_cap dbFix 7 1 ⟨"d1", none, none⟩ 9 none).1.caps.filter
      (capKey 7 1)).length = 1) ∧
    (upsert_cap dbEmptyFix 7 1 ⟨"d1", none, none⟩ 9 none).1.caps =
      dbEmptyFix.caps ++ [newCapRow 7 1 ⟨"d1", none, none⟩] ∧
    ∀ r ∈ ((upsert_cap dbFix 7 1 ⟨"d1", none, none⟩ 9 none).1.caps.filter
      (capKey 7 1)), r.updated_at = some 9 := by
  have h1 := C3_upsert_update_then_insert dbFix 7 1 ⟨"d1", none, none⟩ 9 (by decide)
  have h2 := C3_upsert_update_then_insert dbEmptyFix 7 1 ⟨"d1", none, none⟩ 9
    (by decide)
  exact ⟨h1.2.2.2, (h2.2.1 (by decide)).1, (h1.2.2.1 (by decide)).2⟩

/-- Claim C10: a fault-free `upsert_cap` always writes all three of
`description`, `owner`, and the parsed `target_date` into the key's row —
omitting `owner` or `target_date`, or supplying a malformed date, stores
`none`, overwriting any previous value — on the insert path and the update
path alike. -/
theorem C10_upsert_full_overwrite (db : DB) (cid inum : Int) (body : CapUpsert)
    (now : Nat) :
    ∀ r ∈ ((upsert_cap db cid inum body now none).1.caps.filter (capKey cid inum)),
      r.description = body.description ∧ r.owner = body.owner ∧
      r.target_date = _parse_ddmmyyyy body.target_date := by
  intro r hr
  by_cases h0 : (db.caps.filter (capKey cid inum)).length = 0
  · have hnil : db.caps.filter (capKey cid inum) = [] := List.length_eq_zero.mp h0
    simp only [upsert_cap, h0, if_pos, if_neg] at hr
    simp [h0, List.filter_append, hnil, capKey_newCapRow] at hr
    subst hr
    exact ⟨rfl, rfl, rfl⟩
  · have heq : (upsert_cap db cid inum body now none).1.caps = (db.caps.map (fun r =>
        if capKey cid inum r then applyCapUpdate body now r else r)) := by
      simp [upsert_cap, h0]
    rw [heq, filter_map_pres _ _ (capKey_applyCapUpdate cid inum body now)] at hr
    simp only [List.mem_map, List.mem_filter] at hr
    obtain ⟨r0, ⟨_, hk⟩, rfl⟩ := hr
    simp [hk, applyCapUpdate]

/-- Witness for C10: upserting over the fixture CAP row (which has an owner
and a target date) with an absent owner and a malformed date stores `none` in
both fields. -/
theorem C10_upsert_full_overwrite_witness :
    capFixD2 ∈
      ((upsert_cap dbFix 7 1 ⟨"d2", none, some "bogus"⟩ 9 none).1.caps.filter
        (capKey 7 1)) ∧
    capFixD2.owner = none ∧
    capFixD2.target_date = _parse_ddmmyyyy (some "bogus") := by
  refine ⟨by decide, ?_, ?_⟩
  · exact (C10_upsert_full_overwrite dbFix 7 1 ⟨"d2", none, some "bogus"⟩ 9
      capFixD2 (by decide)).2.1
  · exact (C10_upsert_full_overwrite dbFix 7 1 ⟨"d2", none, some "bogus"⟩ 9
      capFixD2 (by decide)).2.2

theorem maxDate_eq_none_iff (l : List Date) : maxDate l = none ↔ l = [] := by
  cases l with
  | nil => simp [maxDate]
  | cons a t =>
    simp only [maxDate]
    cases maxDate t with
    | none => simp
    | some m =>
      constructor
      · intro h
        by_cases hc : m.toKey < a.toKey <;> simp [hc] at h
      · intro h
        exact absurd h (List.cons_ne_nil a t)

theorem maxDate_mem_and_ge (l : List Date) (d : Date) (h : maxDate l = some d) :
    d ∈ l ∧ ∀ x ∈ l, x.toKey ≤ d.toKey := by
  induction l generalizing d with
  | nil => simp [maxDate] at h
  | cons a t ih =>
    simp only [maxDate] at h
    cases hm : maxDate t with
    | none =>
      rw [hm] at h
      have ht : t = [] := (maxDate_eq_none_iff t).mp hm
      subst ht
      simp only [Option.some.injEq] at h
      subst h
      exact ⟨List.mem_singleton_self a, by simp⟩
    | some m =>
      rw [hm] at h
      have h2 : (if m.toKey < a.toKey then (some a : Option Date) else some m)
          = some d := h
      obtain ⟨hmem, hall⟩ := ih m hm
      by_cases hc : m.toKey < a.toKey
      · rw [if_pos hc] at h2
        simp only [Option.some.injEq] at h2
        subst h2
        refine ⟨List.mem_cons_self _ _, ?_⟩
        intro x hx
        rcases List.mem_cons.mp hx with hx | hx
        · subst hx; exact le_refl _
        · exact le_trans (hall x hx) (le_of_lt hc)
      · rw [if_neg hc] at h2
        simp only [Option.some.injEq] at h2
        subst h2
        refine ⟨List.mem_cons_of_mem a hmem, ?_⟩
        intro x hx
        rcases List.mem_cons.mp hx with hx | hx
        · subst hx; exact Nat.le_of_not_lt hc
        · exact hall x hx

/-- Claim C5: `compute_cap_final_date` returns the greatest `target_date`
among the key's steps — steps without a date do not contribute — and returns
no date exactly when the key has no steps or none of them carries a date. -/
theorem C5_final_date_max (db : DB) (cid inum : Int) :
    (compute_cap_final_date db cid inum = none ↔
      ((stepsFor db cid inum).filterMap (fun r => r.target_date)) = []) ∧
    ∀ d, compute_cap_final_date db cid inum = some d →
      d ∈ ((stepsFor db cid inum).filterMap (fun r => r.target_date)) ∧
      ∀ x ∈ ((stepsFor db cid inum).filterMap (fun r => r.target_date)),
        x.toKey ≤ d.toKey := by
  exact ⟨maxDate_eq_none_iff _, fun d h => maxDate_mem_and_ge _ d h⟩

/-- Witness for C5: the fixture steps carry dates 05.01.2024, null,
20.01.2024 and the final date is 20.01.2024; the empty store yields no date. -/
theorem C5_final_date_max_witness :
    compute_cap_final_date dbFix 7 1 = some ⟨2024, 1, 20⟩ ∧
    (⟨2024, 1, 20⟩ : Date) ∈
      ((stepsFor dbFix 7 1).filterMap (fun r => r.target_date)) ∧
    compute_cap_final_date dbEmptyFix 7 1 = none := by
  refine ⟨by decide, ?_, by decide⟩
  exact ((C5_final_date_max dbFix 7 1).2 ⟨2024, 1, 20⟩ (by decide)).1

/-! ## Lemmas about the date parser -/

theorem natOfDigits_one (c : Char) : natOfDigits [c] = digitVal c := by
  simp [natOfDigits]

theorem natOfDigits_two (c1 c2 : Char) :
    natOfDigits [c1, c2] = 10 * digitVal c1 + digitVal c2 := by
  simp [natOfDigits]

theorem digit_ne_dot (c : Char) (h : digit? c = true) : c ≠ '.' := by
  intro hc
  subst hc
  simp [digit?] at h

theorem parseDayRest_shape_of (l : List Char) (d : Nat) (rest : List Char)
    (h : parseDayRest l = some (d, rest)) :
    ∃ dp, l = dp ++ '.' :: rest ∧ (dp.length = 1 ∨ dp.length = 2) ∧
      dp.all digit? = true ∧ natOfDigits dp = d := by
  rcases l with _ | ⟨c1, _ | ⟨c2, rest'⟩⟩
  · simp [parseDayRest] at h
  · simp [parseDayRest] at h
  · by_cases hc2 : c2 = '.'
    · subst hc2
      simp only [parseDayRest, if_true] at h
      by_cases hg : (digit? c1 && decide (1 ≤ digitVal c1)) = true
      · rw [if_pos hg] at h
        simp only [Option.some.injEq, Prod.mk.injEq] at h
        obtain ⟨hd, hr⟩ := h
        subst hd
        subst hr
        simp only [Bool.and_eq_true] at hg
        exact ⟨[c1], rfl, Or.inl rfl, by simp [hg.1], natOfDigits_one c1⟩
      · rw [if_neg hg] at h
        exact absurd h (by simp)
    · simp only [parseDayRest, if_neg hc2] at h
      rcases rest' with _ | ⟨c3, rest2⟩
      · exact absurd h (by simp)
      · have h2 : (if (decide (c3 = '.') && digit? c1 && digit? c2 &&
            decide (1 ≤ 10 * digitVal c1 + digitVal c2) &&
            decide (10 * digitVal c1 + digitVal c2 ≤ 31)) = true then
            some (10 * digitVal c1 + digitVal c2, rest2) else none) =
            some (d, rest) := h
        by_cases hg : (decide (c3 = '.') && digit? c1 && digit? c2 &&
            decide (1 ≤ 10 * digitVal c1 + digitVal c2) &&
            decide (10 * digitVal c1 + digitVal c2 ≤ 31)) = true
        · rw [if_pos hg] at h2
          simp only [Option.some.injEq, Prod.mk.injEq] at h2
          obtain ⟨hd, hr⟩ := h2
          subst hd
          subst hr
          simp only [Bool.and_eq_true, decide_eq_true_eq] at hg
          obtain ⟨⟨⟨⟨h3, hd1⟩, hd2⟩, -⟩, -⟩ := hg
          subst h3
          exact ⟨[c1, c2], rfl, Or.inr rfl, by simp [hd1, hd2],
            natOfDigits_two c1 c2⟩
        · rw [if_neg hg] at h2
          exact absurd h2 (by simp)

theorem parseDayRest_of_shape (dp rest : List Char)
    (hlen : dp.length = 1 ∨ dp.length = 2) (hdig : dp.all digit? = true)
    (h1 : 1 ≤ natOfDigits dp) (h31 : natOfDigits dp ≤ 31) :
    parseDayRest (dp ++ '.' :: rest) = some (natOfDigits dp, rest) := by
  rcases dp with _ | ⟨c1, _ | ⟨c2, _ | ⟨c3, t⟩⟩⟩
  · simp at hlen
  · have hd1 : digit? c1 = true := by simpa using hdig
    rw [natOfDigits_one] at h1 ⊢
    simp [parseDayRest, hd1, h1]
  · have hd1 : digit? c1 = true := by
      simp [List.all_cons, Bool.and_eq_true] at hdig
      exact hdig.1
    have hd2 : digit? c2 = true := by
      simp [List.all_cons, Bool.and_eq_true] at hdig
      exact hdig.2
    have hne : c2 ≠ '.' := digit_ne_dot c2 hd2
    rw [natOfDigits_two] at h1 h31 ⊢
    simp [parseDayRest, hne, hd1, hd2, h1, h31]
  · simp at hlen

theorem parseMonthRest_shape_of (l : List Char) (m : Nat) (rest : List Char)
    (h : parseMonthRest l = some (m, rest)) :
    ∃ mp, l = mp ++ '.' :: rest ∧ (mp.length = 1 ∨ mp.length = 2) ∧
      mp.all digit? = true ∧ natOfDigits mp = m := by
  rcases l with _ | ⟨c1, _ | ⟨c2, rest'⟩⟩
  · simp [parseMonthRest] at h
  · simp [parseMonthRest] at h
  · by_cases hc2 : c2 = '.'
    · subst hc2
      simp only [parseMonthRest, if_true] at h
      by_cases hg : (digit? c1 && decide (1 ≤ digitVal c1)) = true
      · rw [if_pos hg] at h
        simp only [Option.some.injEq, Prod.mk.injEq] at h
        obtain ⟨hd, hr⟩ := h
        subst hd
        subst hr
        simp only [Bool.and_eq_true] at hg
        exact ⟨[c1], rfl, Or.inl rfl, by simp [hg.1], natOfDigits_one c1⟩
      · rw [if_neg hg] at h
        exact absurd h (by simp)
    · simp only [parseMonthRest, if_neg hc2] at h
      rcases rest' with _ | ⟨c3, rest2⟩
      · exact absurd h (by simp)
      · have h2 : (if (decide (c3 = '.') && digit? c1 && digit? c2 &&
            decide (1 ≤ 10 * digitVal c1 + digitVal c2) &&
            decide (10 * digitVal c1 + digitVal c2 ≤ 12)) = true then
            some (10 * digitVal c1 + digitVal c2, rest2) else none) =
            some (m, rest) := h
        by_cases hg : (decide (c3 = '.') && digit? c1 && digit? c2 &&
            decide (1 ≤ 10 * digitVal c1 + digitVal c2) &&
            decide (10 * digitVal c1 + digitVal c2 ≤ 12)) = true
        · rw [if_pos hg] at h2
          simp only [Option.some.injEq, Prod.mk.injEq] at h2
          obtain ⟨hd, hr⟩ := h2
          subst hd
          subst hr
          simp only [Bool.and_eq_true, decide_eq_true_eq] at hg
          obtain ⟨⟨⟨⟨h3, hd1⟩, hd2⟩, -⟩, -⟩ := hg
          subst h3
          exact ⟨[c1, c2], rfl, Or.inr rfl, by simp [hd1, hd2],
            natOfDigits_two c1 c2⟩
        · rw [if_neg hg] at h2
          exact absurd h2 (by simp)

theorem parseMonthRest_of_shape (mp rest : List Char)
    (hlen : mp.length = 1 ∨ mp.length = 2) (hdig : mp.all digit? = true)
    (h1 : 1 ≤ natOfDigits mp) (h12 : natOfDigits mp ≤ 12) :
    parseMonthRest (mp ++ '.' :: rest) = some (natOfDigits mp, rest) := by
  rcases mp with _ | ⟨c1, _ | ⟨c2, _ | ⟨c3, t⟩⟩⟩
  · simp at hlen
  · have hd1 : digit? c1 = true := by simpa using hdig
    rw [natOfDigits_one] at h1 ⊢
    simp [parseMonthRest, hd1, h1]
  · have hd1 : digit? c1 = true := by
      simp [List.all_cons, Bool.and_eq_true] at hdig
      exact hdig.1
    have hd2 : digit? c2 = true := by
      simp [List.all_cons, Bool.and_eq_true] at hdig
      exact hdig.2
    have hne : c2 ≠ '.' := digit_ne_dot c2 hd2
    rw [natOfDigits_two] at h1 h12 ⊢
    simp [parseMonthRest, hne, hd1, hd2, h1, h12]
  · simp at hlen

theorem parseYearEnd_iff (l : List Char) (y : Nat) :
    parseYearEnd l = some y ↔
      l.length = 4 ∧ l.all digit? = true ∧ natOfDigits l = y := by
  rcases l with _ | ⟨a, _ | ⟨b, _ | ⟨c, _ | ⟨d, _ | ⟨e, t⟩⟩⟩⟩⟩
  · simp [parseYearEnd]
  · simp [parseYearEnd]
  · simp [parseYearEnd]
  · simp [parseYearEnd]
  · constructor
    · intro h
      simp only [parseYearEnd] at h
      by_cases hg : (digit? a && digit? b && digit? c && digit? d) = true
      · rw [if_pos hg] at h
        simp only [Bool.and_eq_true] at hg
        obtain ⟨⟨⟨ha, hb⟩, hc⟩, hd⟩ := hg
        exact ⟨rfl, by simp [ha, hb, hc, hd], Option.some.inj h⟩
      · rw [if_neg hg] at h
        exact absurd h (by simp)
    · rintro ⟨-, hall, rfl⟩
      simp only [List.all_cons, List.all_nil, Bool.and_eq_true, Bool.and_true]
        at hall
      obtain ⟨ha, hb, hc, hd⟩ := hall
      simp [parseYearEnd, ha, hb, hc, hd]
  · constructor
    · intro h
      exact absurd h (by simp [parseYearEnd])
    · rintro ⟨hl, -, -⟩
      simp only [List.length_cons] at hl
      omega

theorem daysInMonth_le_31 (y m : Nat) : daysInMonth y m ≤ 31 := by
  unfold daysInMonth
  split_ifs <;> omega

theorem validDate_iff (y m d : Nat) :
    validDate y m d = true ↔
      1 ≤ y ∧ y ≤ 9999 ∧ 1 ≤ m ∧ m ≤ 12 ∧ 1 ≤ d ∧ d ≤ daysInMonth y m := by
  simp only [validDate, Bool.and_eq_true, decide_eq_true_eq]
  tauto

/-- Claim C4 (amended): `_parse_ddmmyyyy` accepts exactly the inputs of the
shape day-dot-month-dot-year with a one- OR two-digit day and month (not only
the two-digit `DD.MM.YYYY` the original claim states) and an exactly
four-digit year, denoting a valid calendar date; every other input — absent,
empty, non-date text, or a well-formed but invalid date such as `31.02.2024` —
yields no date rather than an error, and `01.03.2024` parses to
March 1, 2024. -/
theorem C4_parse_date_lenient :
    (∀ (s : String) (dt : Date),
      _parse_ddmmyyyy (some s) = some dt ↔ SpecShapeDate s.data dt) ∧
    _parse_ddmmyyyy none = none ∧
    _parse_ddmmyyyy (some "31.02.2024") = none ∧
    _parse_ddmmyyyy (some "not-a-date") = none ∧
    _parse_ddmmyyyy (some "01.03.2024") = some ⟨2024, 3, 1⟩ := by
  refine ⟨?_, rfl, by decide, by decide, by decide⟩
  intro s dt
  constructor
  · intro h
    simp only [_parse_ddmmyyyy] at h
    by_cases he : s.data.isEmpty
    · rw [if_pos he] at h
      exact absurd h (by simp)
    · rw [if_neg he] at h
      simp only [strptimeDMY, Option.bind_eq_some, Option.map_eq_some'] at h
      obtain ⟨t, ⟨p, hp, q, hq, yv, hy, ht⟩, hmk⟩ := h
      subst ht
      rcases p with ⟨d, rest⟩
      rcases q with ⟨m, rest2⟩
      have hmk2 : mkDate? yv m d = some dt := hmk
      obtain ⟨dp, hsd, hdl, hdd, hdv⟩ := parseDayRest_shape_of s.data d rest hp
      obtain ⟨mp, hsm, hml, hmd, hmv⟩ := parseMonthRest_shape_of rest m rest2 hq
      obtain ⟨hyl, hyd, hyv⟩ := (parseYearEnd_iff rest2 yv).mp hy
      by_cases hval : validDate yv m d = true
      · unfold mkDate? at hmk2
        rw [if_pos hval] at hmk2
        refine ⟨dp, mp, rest2, ?_, hdl, hdd, hml, hmd, hyl, hyd, ?_, ?_⟩
        · rw [hsd, hsm]
        · rw [hyv, hmv, hdv]
          exact (Option.some.inj hmk2).symm
        · rw [hyv, hmv, hdv]
          exact hval
      · unfold mkDate? at hmk2
        rw [if_neg hval] at hmk2
        exact absurd hmk2 (by simp)
  · rintro ⟨dp, mp, yp, hs, hdl, hdd, hml, hmd, hyl, hyd, hdt, hv⟩
    obtain ⟨hy1, hy2, hm1, hm2, hd1, hd2⟩ := (validDate_iff _ _ _).mp hv
    have hday : parseDayRest (dp ++ '.' :: (mp ++ '.' :: yp)) =
        some (natOfDigits dp, mp ++ '.' :: yp) :=
      parseDayRest_of_shape dp _ hdl hdd hd1
        (le_trans hd2 (daysInMonth_le_31 _ _))
    have hmon : parseMonthRest (mp ++ '.' :: yp) = some (natOfDigits mp, yp) :=
      parseMonthRest_of_shape mp yp hml hmd hm1 hm2
    have hyr : parseYearEnd yp = some (natOfDigits yp) :=
      (parseYearEnd_iff yp _).mpr ⟨hyl, hyd, rfl⟩
    show (if s.data.isEmpty then none
      else (strptimeDMY s.data).bind (fun t => mkDate? t.2.2 t.2.1 t.1)) = some dt
    rcases dp with _ | ⟨c, tl⟩
    · simp at hdl
    · have hie : s.data.isEmpty = false := by
        rw [hs]
        rfl
      simp only [hie, Bool.false_eq_true, if_false]
      rw [hs]
      simp only [List.cons_append] at hday
      simp [strptimeDMY, hday, hmon, hyr, mkDate?, hv, hdt]

/-- Counterexample to claim C4 as stated: `"1.3.2024"` does not match the
exact two-digit `DD.MM.YYYY` pattern, yet the parser accepts it and returns
March 1, 2024 (Python's `%d` and `%m` also match single digits), so inputs
outside the exact pattern do not all yield "no date". -/
theorem C4_counterexample :
    strictDDMMYYYY "1.3.2024".data = false ∧
    _parse_ddmmyyyy (some "1.3.2024") = some ⟨2024, 3, 1⟩ :=
  ⟨by decide, by decide⟩

/-- Witness for C4 (amended): the equivalence applied at the one-digit-day
input `5.12.2024` and its explicit decomposition. -/
theorem C4_parse_date_lenient_witness :
    _parse_ddmmyyyy (some "5.12.2024") = some ⟨2024, 12, 5⟩ := by
  refine (C4_parse_date_lenient.1 "5.12.2024" ⟨2024, 12, 5⟩).mpr ?_
  refine ⟨['5'], ['1', '2'], ['2', '0', '2', '4'], ?_, ?_, ?_, ?_, ?_, ?_, ?_,
    ?_, ?_⟩ <;> decide

end CloudApi
